import Mathlib

/-!
Verification of the ESMF timing-summary scripts (`run-cam/timing.py` and
`timing/timing.py`): the line tokenizer, region-tree resolver, region
registry, and comparator/ranker, embedded shallowly.  Floating-point
times are modelled as exact rationals (the parsed tokens are finite
decimals), and Python dictionaries as insertion-ordered association
lists with replace-on-duplicate, matching CPython semantics.
-/

/-- ASCII whitespace, as matched by the pattern class used in the scripts
on profiler output (space, tab, and the ASCII control separators). -/
def pySpace (c : Char) : Bool :=
  c = ' ' || c = '\t' || c = '\n' || c = '\x0b' || c = '\x0c' || c = '\r'

/-- Split a character list (already stripped of leading whitespace) into
whitespace-delimited fields, each paired with the whitespace run that
follows it.  Fuel-driven structural recursion; every step consumes at
least one character, so fuel `cs.length` never runs out. -/
def splitFieldsAux : Nat → List Char → List (List Char × List Char)
  | 0, _ => []
  | _, [] => []
  | fuel + 1, c :: cs =>
      let tok := c :: cs.takeWhile (fun x => !pySpace x)
      let rest1 := cs.dropWhile (fun x => !pySpace x)
      (tok, rest1.takeWhile pySpace) :: splitFieldsAux fuel (rest1.dropWhile pySpace)

def splitFields (cs : List Char) : List (List Char × List Char) :=
  splitFieldsAux cs.length cs

/-- A nonempty all-digit token, the pattern `\d+`. -/
def isDigits (s : List Char) : Bool :=
  !s.isEmpty && s.all Char.isDigit

/-- A decimal token with mandatory fractional part, the pattern `\d+\.\d+`. -/
def isDecimal (s : List Char) : Bool :=
  let ip := s.takeWhile Char.isDigit
  !ip.isEmpty &&
    match s.drop ip.length with
    | '.' :: fp => !fp.isEmpty && fp.all Char.isDigit
    | _ => false

/-- Value of an all-digit token, as `int(...)` computes it. -/
def digitsToNat (s : List Char) : Nat :=
  s.foldl (fun n c => n * 10 + (c.toNat - '0'.toNat)) 0

/-- Exact value of a `\d+\.\d+` token (`float(...)` in the source; the
token is a finite decimal, embedded as the rational it denotes). -/
def decimalToRat (s : List Char) : Rat :=
  let ip := s.takeWhile Char.isDigit
  let fp := s.drop (ip.length + 1)
  (digitsToNat ip : Rat) + (digitsToNat fp : Rat) / (10 : Rat) ^ fp.length

/-- One parsed Region-table row of `run-cam/timing.py`.  `Count = none`
renders the `MULTIPLE` sentinel; `PETs`/`PEs` are `none` when the line's
grammar variant lacked those columns.  `pctOfParent` models the
`"% of parent (mean)"` key added to the row dictionary later by `main`
(`none` = key absent; `some none` = the NaN sentinel stored under it). -/
structure RegionRecord where
  indent : Nat
  region : String
  PETs : Option Nat
  PEs : Option Nat
  Count : Option Nat
  meanS : Rat
  minS : Rat
  minPET : Nat
  maxS : Rat
  maxPET : Nat
  pctOfParent : Option (Option Rat)
deriving DecidableEq

def multipleToken : String := "MULTIPLE"

/-- The six trailing fields `<count|MULTIPLE> <mean> <min> <minPET> <max> <maxPET>`. -/
def parseTail6 (fs : List (List Char × List Char)) :
    Option (Option Nat × Rat × Rat × Nat × Rat × Nat) :=
  match fs with
  | [(c, _), (me, _), (mi, _), (mp, _), (ma, _), (xp, _)] =>
    if (decide (c = multipleToken.toList) || isDigits c) && isDecimal me && isDecimal mi
        && isDigits mp && isDecimal ma && isDigits xp then
      some (if c = multipleToken.toList then none else some (digitsToNat c),
            decimalToRat me, decimalToRat mi, digitsToNat mp, decimalToRat ma, digitsToNat xp)
    else none
  | _ => none

/-- The optional `<PETs> <PEs>` pair followed by the six trailing fields. -/
def parseTail8 (fs : List (List Char × List Char)) :
    Option (Nat × Nat × (Option Nat × Rat × Rat × Nat × Rat × Nat)) :=
  match fs with
  | (pets, _) :: (pes, _) :: rest =>
    if isDigits pets && isDigits pes then
      (parseTail6 rest).map (fun t => (digitsToNat pets, digitsToNat pes, t))
    else none
  | _ => none

/-- The name group spans whole fields (it must end at a character
followed by whitespace); rebuild it with the original separators.  The
`.strip()` applied in the source is the identity here because the span
starts and ends with non-whitespace. -/
def buildName : List (List Char × List Char) → String
  | [] => String.mk []
  | [(t, _)] => String.mk t
  | (t, s) :: rest => String.mk (t ++ s) ++ buildName rest

/-- The line pattern of both scripts:
`^(\s*)(\S.*?\S|\S)\s+(?:(\d+)\s+(\d+)\s+)?(MULTIPLE|\d+)\s+(\d+\.\d+)\s+(\d+\.\d+)\s+(\d+)\s+(\d+\.\d+)\s+(\d+)\s*$`.
The lazy name group takes the shortest span of whole fields for which
the remainder matches; the remainder consumes exactly eight fields when
the greedy optional `PETs/PEs` group participates and exactly six
otherwise, so with `k` fields the engine first tries a name of `k - 8`
fields (needs `k ≥ 9`) and then one of `k - 6` fields (needs `k ≥ 7`). -/
def matchLine (line : String) : Option RegionRecord :=
  let cs := line.toList
  let ind := (cs.takeWhile pySpace).length
  let fs := splitFields (cs.dropWhile pySpace)
  let k := fs.length
  match (if 9 ≤ k then parseTail8 (fs.drop (k - 8)) else none) with
  | some (pets, pes, cnt, me, mi, mp, ma, xp) =>
      some { indent := ind, region := buildName (fs.take (k - 8)), PETs := some pets,
             PEs := some pes, Count := cnt, meanS := me, minS := mi, minPET := mp,
             maxS := ma, maxPET := xp, pctOfParent := none }
  | none =>
    match (if 7 ≤ k then parseTail6 (fs.drop (k - 6)) else none) with
    | some (cnt, me, mi, mp, ma, xp) =>
        some { indent := ind, region := buildName (fs.take (k - 6)), PETs := none,
               PEs := none, Count := cnt, meanS := me, minS := mi, minPET := mp,
               maxS := ma, maxPET := xp, pctOfParent := none }
    | none => none

def parseErrorMsg : String := "No Region rows parsed. Is this an ESMF_Profile.summary file?"

/-- `parse_esmf_summary` of `run-cam/timing.py` (lines 29-67), applied to
the document's lines (`splitlines` of the file text): keep every line
matching the grammar; raise `RuntimeError` when no line matched. -/
def parse_esmf_summary (lines : List String) : Except String (List RegionRecord) :=
  let rows := lines.filterMap matchLine
  if rows.isEmpty then Except.error parseErrorMsg else Except.ok rows

/-- One parsed row of `timing/timing.py`, which stores only these five keys. -/
structure TimingRecord where
  indent : Nat
  region : String
  meanS : Rat
  minS : Rat
  maxS : Rat
deriving DecidableEq

/-- Per-line tokenizer of `timing/timing.py` (same pattern, fewer kept fields). -/
def timingMatchLine (line : String) : Option TimingRecord :=
  (matchLine line).map fun r =>
    { indent := r.indent, region := r.region, meanS := r.meanS, minS := r.minS, maxS := r.maxS }

/-- `parse_esmf_summary` of `timing/timing.py` (lines 11-37): it returns
the matched rows unconditionally — there is no empty-document check and
no error path. -/
def timing_parse_esmf_summary (lines : List String) : List TimingRecord :=
  lines.filterMap timingMatchLine

/-- `find_region_rows` (run-cam lines 69-74): first exact-name match,
scanning from the start, returned with its position; `none` renders the
`(None, None)` result. -/
def find_region_rows : List RegionRecord → String → Option (RegionRecord × Nat)
  | [], _ => none
  | r :: rest, region =>
    if r.region = region then some (r, 0)
    else (find_region_rows rest region).map (fun p => (p.1, p.2 + 1))

/-- `collect_children` (run-cam lines 76-84): contiguous records after
`parent_idx` while `indent > parent_indent`; the loop's `break` is a
`takeWhile`.  The function is only invoked with a valid index; an
out-of-range index yields `[]` here. -/
def collect_children (rows : List RegionRecord) (parent_idx : Nat) : List RegionRecord :=
  match rows[parent_idx]? with
  | none => []
  | some parent =>
      (rows.drop (parent_idx + 1)).takeWhile (fun r => decide (parent.indent < r.indent))

/-- One `m[k] = v` step on a CPython dict modelled as an insertion-ordered
association list: an existing key keeps its slot and gets the new value,
a fresh key is appended. -/
def dictInsert (m : List (String × RegionRecord)) (k : String) (v : RegionRecord) :
    List (String × RegionRecord) :=
  if m.any (fun p => decide (p.1 = k)) then
    m.map (fun p => if p.1 = k then (k, v) else p)
  else m ++ [(k, v)]

/-- `build_region_map` (run-cam lines 86-91): scan the rows in order,
later occurrences of a name overwriting earlier ones. -/
def build_region_map (rows : List RegionRecord) : List (String × RegionRecord) :=
  rows.foldl (fun m r => dictInsert m r.region r) []

/-- Dict lookup `m[k]` (with `k in m` as the `isSome` of the result). -/
def lookupDict (m : List (String × RegionRecord)) (k : String) : Option RegionRecord :=
  (m.find? (fun p => decide (p.1 = k))).map (fun p => p.2)

/-- Share-of-parent ratio (run-cam line 121):
`100.0 * (mean / pmean) if pmean > 0 else float("nan")`; the NaN
sentinel is rendered as `none`. -/
def shareOfParent (childMean pmean : Rat) : Option Rat :=
  if 0 < pmean then some (100 * (childMean / pmean)) else none

/-- Speedup (run-cam line 179):
`(base_mean / opt_mean) if opt_mean and opt_mean > 0 else None`. -/
def speedup (base_mean opt_mean : Rat) : Option Rat :=
  if opt_mean ≠ 0 ∧ 0 < opt_mean then some (base_mean / opt_mean) else none

/-- The in-place update `r["% of parent (mean)"] = ...` performed on each
child row (run-cam lines 120-121). -/
def addShare (pmean : Rat) (r : RegionRecord) : RegionRecord :=
  { r with pctOfParent := some (shareOfParent r.meanS pmean) }

/-- Effect of the share-of-parent loop on the whole parsed sequence: the
child rows are the very dictionaries held by `base_rows`, so mutating
them rewrites the corresponding span of the sequence in place. -/
def applyShareToRows (rows : List RegionRecord) (pidx : Nat) (pmean : Rat) :
    List RegionRecord :=
  rows.take (pidx + 1)
    ++ (collect_children rows pidx).map (addShare pmean)
    ++ rows.drop (pidx + 1 + (collect_children rows pidx).length)

/-- Descending-by-mean comparison used by
`sorted(base_children, key=lambda r: r["Mean (s)"], reverse=True)`;
Python's sort is stable and `reverse=True` preserves stability. -/
def meanDescLe (a b : RegionRecord) : Bool :=
  decide (b.meanS ≤ a.meanS)

/-- Ranking (run-cam line 124): stable descending sort by mean, truncated
to the first `top` entries. -/
def rankChildren (children : List RegionRecord) (top : Nat) : List RegionRecord :=
  (children.mergeSort meanDescLe).take top

/-- The optimized-side columns of one output row (run-cam lines 180-188),
present only when the optimized summary was supplied and the name was
found in its registry. -/
structure OptFields where
  optimized_mean_s : Rat
  optimized_min_s : Rat
  optimized_max_s : Rat
  optimized_count : Option Nat
  optimized_PETs : Option Nat
  optimized_PEs : Option Nat
  speedup_base_over_opt : Option Rat
deriving DecidableEq

/-- One assembled output row (run-cam lines 163-198): baseline columns
always present; `optData = none` renders the "no counterpart" row that is
printed with dashes and written to CSV without optimized columns. -/
structure ComparisonRow where
  region : String
  baseline_mean_s : Rat
  baseline_min_s : Rat
  baseline_max_s : Rat
  baseline_count : Option Nat
  baseline_PETs : Option Nat
  baseline_PEs : Option Nat
  optData : Option OptFields
deriving DecidableEq

/-- Assembly of one row of the loop body (run-cam lines 153-198). -/
def makeRow (optSupplied : Bool) (optMap : List (String × RegionRecord))
    (r : RegionRecord) : ComparisonRow :=
  { region := r.region
    baseline_mean_s := r.meanS
    baseline_min_s := r.minS
    baseline_max_s := r.maxS
    baseline_count := r.Count
    baseline_PETs := r.PETs
    baseline_PEs := r.PEs
    optData :=
      if optSupplied then
        match lookupDict optMap r.region with
        | some o =>
            some { optimized_mean_s := o.meanS
                   optimized_min_s := o.minS
                   optimized_max_s := o.maxS
                   optimized_count := o.Count
                   optimized_PETs := o.PETs
                   optimized_PEs := o.PEs
                   speedup_base_over_opt := speedup r.meanS o.meanS }
        | none => none
      else none }

/-- The `csv_rows` accumulated over the sorted children: one row appended
per child, unconditionally. -/
def assembleRows (optSupplied : Bool) (optMap : List (String × RegionRecord))
    (children : List RegionRecord) : List ComparisonRow :=
  children.map (makeRow optSupplied optMap)

/-- Baseline error-bar extents (run-cam lines 160-161), clamped at zero. -/
def base_xerr_low (children : List RegionRecord) : List Rat :=
  children.map (fun r => max 0 (r.meanS - r.minS))

def base_xerr_high (children : List RegionRecord) : List Rat :=
  children.map (fun r => max 0 (r.maxS - r.meanS))

def ANNOTATE_THRESHOLD_PCT : Rat := 5

def fasterLabel : String := "faster"

def slowerLabel : String := "slower"

/-- Annotation decision of run-cam (lines 246-251) for one aligned pair:
guarded by `base_val and base_val > 0`, threshold fixed at the module
constant, direction from the sign of the percentage delta. -/
def classifyRunCam (base_val opt_val : Rat) : Option String :=
  if base_val ≠ 0 ∧ 0 < base_val then
    if ANNOTATE_THRESHOLD_PCT ≤ |(base_val - opt_val) / base_val * 100| then
      some (if 0 < (base_val - opt_val) / base_val * 100 then fasterLabel else slowerLabel)
    else none
  else none

/-- Annotation decision of `timing/timing.py` (lines 100-109): guarded by
`base > 0 and opt > 0`, configurable threshold. -/
def classifyTiming (threshold base opt : Rat) : Option String :=
  if 0 < base ∧ 0 < opt then
    if threshold ≤ |100 * (base - opt) / base| then
      some (if 0 < 100 * (base - opt) / base then fasterLabel else slowerLabel)
    else none
  else none

/-- The bounded diagnostic name sample of run-cam line 112:
`sorted(set(r['region'] for r in base_rows[:30]))`. -/
def exampleNames (rows : List RegionRecord) : List String :=
  (((rows.take 30).map (fun r => r.region)).dedup).mergeSort (fun a b => decide (a ≤ b))

/-- Baseline region selection (run-cam lines 110-112): `SystemExit` with
the diagnostic sample when the region is absent. -/
def selectRegion (rows : List RegionRecord) (region : String) :
    Except (List String) (RegionRecord × Nat) :=
  match find_region_rows rows region with
  | some p => Except.ok p
  | none => Except.error (exampleNames rows)

/-- Optimized-document handling of run-cam lines 128-133: parse failures
propagate, but a missing region only sets the warning (the `Bool` here)
and the registry is built and used regardless. -/
def loadOptimized (optLines : List String) (region : String) :
    Except String (Bool × List (String × RegionRecord)) :=
  match parse_esmf_summary optLines with
  | Except.error e => Except.error e
  | Except.ok optRows =>
      Except.ok ((find_region_rows optRows region).isNone, build_region_map optRows)

/-- A tuple of the ten fields produced by the tokenizer (everything in a
row dictionary except the later-added share-of-parent key). -/
def parsedPart (r : RegionRecord) :
    Nat × String × Option Nat × Option Nat × Option Nat × Rat × Rat × Nat × Rat × Nat :=
  (r.indent, r.region, r.PETs, r.PEs, r.Count, r.meanS, r.minS, r.minPET, r.maxS, r.maxPET)

/-- The inner annotation step shared by both classify functions: threshold
test on the absolute percentage delta, direction from its sign. -/
def classifyCore (thr x : Rat) : Option String :=
  if thr ≤ |x| then some (if 0 < x then fasterLabel else slowerLabel) else none

def nameA : String := "A"

def nameB : String := "B"

def nameC : String := "C"

def nameD : String := "D"

def nameX : String := "X"

/-- The worked indentation example of the specification, section 8:
`[A indent0 mean10], [B indent2 mean6], [C indent2 mean9], [D indent0 mean1]`. -/
def rowA : RegionRecord :=
  { indent := 0, region := nameA, PETs := none, PEs := none, Count := some 1,
    meanS := 10, minS := 9, minPET := 0, maxS := 11, maxPET := 1, pctOfParent := none }

def rowB : RegionRecord :=
  { indent := 2, region := nameB, PETs := none, PEs := none, Count := some 1,
    meanS := 6, minS := 5, minPET := 0, maxS := 7, maxPET := 1, pctOfParent := none }

def rowC : RegionRecord :=
  { indent := 2, region := nameC, PETs := none, PEs := none, Count := some 1,
    meanS := 9, minS := 8, minPET := 0, maxS := 10, maxPET := 1, pctOfParent := none }

def rowD : RegionRecord :=
  { indent := 0, region := nameD, PETs := none, PEs := none, Count := some 1,
    meanS := 1, minS := 1, minPET := 0, maxS := 1, maxPET := 1, pctOfParent := none }

def exampleRows : List RegionRecord := [rowA, rowB, rowC, rowD]

/-- A record violating the unvalidated upstream invariant `min ≤ mean ≤ max`. -/
def clampRec : RegionRecord :=
  { indent := 2, region := nameX, PETs := none, PEs := none, Count := some 1,
    meanS := 1, minS := 2, minPET := 0, maxS := 0, maxPET := 1, pctOfParent := none }

def goodLine : String := "a 1 1.0 2.0 3 4.0 5"

def goodDoc : List String := [goodLine]

def badLine : String := "x"

def badDoc : List String := [badLine]

def optLine9 : String := "opt_region 4 1.0 0.5 0 2.0 1"

def optDoc9 : List String := [optLine9]

def optRows9 : List RegionRecord := optDoc9.filterMap matchLine

def regionName9 : String := "dyn_run"

def timerA : String := "a"

def timerB : String := "b"

/-- `extract_named_regions` of `timing/timing.py` (lines 39-40): keep the
rows whose name is among the requested timers. -/
def extract_named_regions (rows : List TimingRecord) (names : List String) : List TimingRecord :=
  rows.filter (fun r => names.contains r.region)

/-- One step of the dict comprehension `{r["region"]: r for r in ...}`
(timing/timing.py lines 60-61), with the same CPython semantics as
`dictInsert`. -/
def timingDictInsert (m : List (String × TimingRecord)) (k : String) (v : TimingRecord) :
    List (String × TimingRecord) :=
  if m.any (fun p => decide (p.1 = k)) then
    m.map (fun p => if p.1 = k then (k, v) else p)
  else m ++ [(k, v)]

/-- `opt_data` (timing/timing.py line 61): the name-to-record dict over
the extracted optimized regions. -/
def build_opt_data (optRows : List TimingRecord) (timers : List String) :
    List (String × TimingRecord) :=
  (extract_named_regions optRows timers).foldl (fun m r => timingDictInsert m r.region r) []

def timingLookup (m : List (String × TimingRecord)) (k : String) : Option TimingRecord :=
  (m.find? (fun p => decide (p.1 = k))).map (fun p => p.2)

/-- `opt_means = [opt_data[r]["Mean (s)"] for r in args.timers]`
(timing/timing.py line 92): *unguarded* dict lookups evaluated left to
right; a requested timer absent from `opt_data` raises `KeyError` there,
modelled as `none`. -/
def timing_opt_means (optData : List (String × TimingRecord)) : List String → Option (List Rat)
  | [] => some []
  | tm :: rest =>
    match timingLookup optData tm with
    | none => none
    | some x => (timing_opt_means optData rest).map (fun ms => x.meanS :: ms)

/-- The optimized rows of a document supplying only the first of the two
requested timers below. -/
def optTimingRows : List TimingRecord := timing_parse_esmf_summary goodDoc

def timersCex : List String := [timerA, timerB]

def cexOptData : List (String × TimingRecord) := build_opt_data optTimingRows timersCex

theorem filterMap_ne_nil_of_any (lines : List String)
    (h : lines.any (fun l => (matchLine l).isSome) = true) :
    (lines.filterMap matchLine).isEmpty = false := by
  rcases List.any_eq_true.mp h with ⟨l, hl, hsome⟩
  cases hempty : (lines.filterMap matchLine).isEmpty
  · rfl
  · exfalso
    have h2 : lines.filterMap matchLine = [] := by
      simpa [List.isEmpty_iff] using hempty
    have h3 := (List.filterMap_eq_nil_iff.mp h2) l hl
    rw [h3] at hsome
    simp at hsome

theorem parse_ok_of_any (lines : List String)
    (h : lines.any (fun l => (matchLine l).isSome) = true) :
    parse_esmf_summary lines = Except.ok (lines.filterMap matchLine) := by
  have hf := filterMap_ne_nil_of_any lines h
  simp only [parse_esmf_summary, hf]
  simp

theorem parse_error_iff (lines : List String) :
    parse_esmf_summary lines = Except.error parseErrorMsg ↔ ∀ l ∈ lines, matchLine l = none := by
  rw [← List.filterMap_eq_nil_iff]
  unfold parse_esmf_summary
  cases hc : (lines.filterMap matchLine).isEmpty
  · simp_all [List.isEmpty_iff]
  · simp_all [List.isEmpty_iff]

theorem takeWhile_getElem_eq {α : Type} (p : α → Bool) (l : List α) :
    ∀ j, j < (l.takeWhile p).length → (l.takeWhile p)[j]? = l[j]? := by
  induction l with
  | nil => intro j h; simp at h
  | cons a t ih =>
    intro j h
    by_cases hpa : p a = true
    · rw [List.takeWhile_cons_of_pos hpa] at h ⊢
      cases j with
      | zero => simp
      | succ j' =>
        simp only [List.getElem?_cons_succ]
        exact ih j' (by simpa using h)
    · rw [List.takeWhile_cons_of_neg (by simpa using hpa)] at h
      simp at h

theorem dropWhile_head_not {α : Type} (p : α → Bool) (l : List α) :
    ∀ x, (l.dropWhile p).head? = some x → p x = false := by
  induction l with
  | nil => intro x h; simp at h
  | cons a t ih =>
    intro x h
    by_cases hpa : p a = true
    · rw [List.dropWhile_cons_of_pos hpa] at h
      exact ih x h
    · rw [List.dropWhile_cons_of_neg (by simpa using hpa)] at h
      simp only [List.head?_cons, Option.some.injEq] at h
      rw [h] at hpa
      simpa using hpa

theorem find_map_replace_of_ne (m : List (String × RegionRecord)) (k : String)
    (v : RegionRecord) (name : String) (hne : name ≠ k) :
    (m.map (fun p => if p.1 = k then (k, v) else p)).find? (fun p => decide (p.1 = name))
      = m.find? (fun p => decide (p.1 = name)) := by
  induction m with
  | nil => rfl
  | cons q t ih =>
    by_cases hq : q.1 = k
    · simp only [List.map_cons, if_pos hq]
      have e1 : (decide ((k, v).1 = name)) = false :=
        decide_eq_false (fun h => hne h.symm)
      have e2 : (decide (q.1 = name)) = false :=
        decide_eq_false (fun h => hne (hq ▸ h).symm)
      rw [List.find?_cons_of_neg _ (by simpa using e1), List.find?_cons_of_neg _ (by simpa using e2)]
      exact ih
    · simp only [List.map_cons, if_neg hq]
      cases hpq : (decide (q.1 = name))
      · rw [List.find?_cons_of_neg _ (by simpa using hpq), List.find?_cons_of_neg _ (by simpa using hpq)]
        exact ih
      · rw [List.find?_cons_of_pos _ (by simpa using hpq), List.find?_cons_of_pos _ (by simpa using hpq)]

theorem find_map_replace_of_eq (m : List (String × RegionRecord)) (k : String)
    (v : RegionRecord) (hany : m.any (fun p => decide (p.1 = k)) = true) :
    (m.map (fun p => if p.1 = k then (k, v) else p)).find? (fun p => decide (p.1 = k))
      = some (k, v) := by
  induction m with
  | nil => simp at hany
  | cons q t ih =>
    by_cases hq : q.1 = k
    · simp only [List.map_cons, if_pos hq]
      rw [List.find?_cons_of_pos _ (by simp)]
    · simp only [List.map_cons, if_neg hq]
      rw [List.find?_cons_of_neg _ (by simpa using hq)]
      apply ih
      simp only [List.any_cons, Bool.or_eq_true] at hany
      rcases hany with h | h
      · exact absurd (of_decide_eq_true h) hq
      · exact h

theorem lookup_dictInsert (m : List (String × RegionRecord)) (k : String) (v : RegionRecord)
    (name : String) :
    lookupDict (dictInsert m k v) name = if name = k then some v else lookupDict m name := by
  unfold dictInsert lookupDict
  by_cases hany : m.any (fun p => decide (p.1 = k)) = true
  · rw [if_pos hany]
    by_cases hnk : name = k
    · subst hnk
      rw [find_map_replace_of_eq m name v hany, if_pos rfl]
      rfl
    · rw [find_map_replace_of_ne m k v name hnk, if_neg hnk]
  · rw [if_neg hany, List.find?_append]
    by_cases hnk : name = k
    · subst hnk
      have hm : m.find? (fun p => decide (p.1 = name)) = none := by
        rw [List.find?_eq_none]
        intro x hx hpx
        exact hany (List.any_eq_true.mpr ⟨x, hx, hpx⟩)
      rw [hm, Option.none_or, List.find?_cons_of_pos _ (by simp), if_pos rfl]
      rfl
    · have hone : ([((k, v))] : List (String × RegionRecord)).find?
          (fun p => decide (p.1 = name)) = none := by
        rw [List.find?_eq_none]
        intro x hx hpx
        simp only [List.mem_singleton] at hx
        rw [hx] at hpx
        exact hnk (of_decide_eq_true hpx).symm
      rw [hone, Option.or_none, if_neg hnk]

theorem lookup_build_foldl (rows : List RegionRecord) :
    ∀ (m : List (String × RegionRecord)) (name : String),
    lookupDict (rows.foldl (fun acc r => dictInsert acc r.region r) m) name
      = match rows.reverse.find? (fun r => decide (r.region = name)) with
        | some v => some v
        | none => lookupDict m name := by
  induction rows with
  | nil => intro m name; rfl
  | cons a t ih =>
    intro m name
    rw [List.foldl_cons, ih (dictInsert m a.region a) name, List.reverse_cons, List.find?_append]
    cases hf : t.reverse.find? (fun r => decide (r.region = name)) with
    | some v => rfl
    | none =>
      simp only [Option.none_or]
      by_cases ha : a.region = name
      · rw [List.find?_cons_of_pos _ (by simpa using ha), lookup_dictInsert, if_pos ha.symm]
      · rw [List.find?_cons_of_neg _ (by simpa using ha), lookup_dictInsert,
          if_neg (fun h => ha h.symm)]
        rfl

theorem length_dictInsert_le (m : List (String × RegionRecord)) (k : String) (v : RegionRecord) :
    (dictInsert m k v).length ≤ m.length + 1 := by
  unfold dictInsert
  by_cases hany : m.any (fun p => decide (p.1 = k)) = true
  · rw [if_pos hany, List.length_map]
    exact Nat.le_succ _
  · rw [if_neg hany, List.length_append]
    simp

theorem length_build_foldl_le (rows : List RegionRecord) :
    ∀ m : List (String × RegionRecord),
      (rows.foldl (fun acc r => dictInsert acc r.region r) m).length ≤ m.length + rows.length := by
  induction rows with
  | nil => intro m; simp
  | cons a t ih =>
    intro m
    rw [List.foldl_cons]
    calc (t.foldl (fun acc r => dictInsert acc r.region r) (dictInsert m a.region a)).length
        ≤ (dictInsert m a.region a).length + t.length := ih _
      _ ≤ m.length + 1 + t.length :=
          Nat.add_le_add_right (length_dictInsert_le m a.region a) _
      _ = m.length + (a :: t).length := by simp; omega

theorem mem_dictInsert_or (m : List (String × RegionRecord)) (k : String) (v : RegionRecord) :
    ∀ q ∈ dictInsert m k v, q ∈ m ∨ q = (k, v) := by
  unfold dictInsert
  by_cases hany : m.any (fun p => decide (p.1 = k)) = true
  · rw [if_pos hany]
    intro q hq
    rcases List.mem_map.mp hq with ⟨w, hw, hweq⟩
    by_cases hw1 : w.1 = k
    · right; rw [← hweq, if_pos hw1]
    · left; rw [← hweq, if_neg hw1]; exact hw
  · rw [if_neg hany]
    intro q hq
    rcases List.mem_append.mp hq with h | h
    · left; exact h
    · right; simpa using h

theorem mem_build_foldl_or (rows : List RegionRecord) :
    ∀ (m : List (String × RegionRecord)) q,
      q ∈ rows.foldl (fun acc r => dictInsert acc r.region r) m →
      q ∈ m ∨ ∃ r ∈ rows, q = (r.region, r) := by
  induction rows with
  | nil => intro m q h; left; exact h
  | cons a t ih =>
    intro m q h
    rw [List.foldl_cons] at h
    rcases ih (dictInsert m a.region a) q h with h1 | h2
    · rcases mem_dictInsert_or m a.region a q h1 with h3 | h4
      · left; exact h3
      · right; exact ⟨a, List.mem_cons_self a t, h4⟩
    · rcases h2 with ⟨r, hr, hq⟩
      right; exact ⟨r, List.mem_cons_of_mem a hr, hq⟩

theorem classifyRunCam_eq_core (b o : Rat) (hb : 0 < b) :
    classifyRunCam b o = classifyCore ANNOTATE_THRESHOLD_PCT ((b - o) / b * 100) := by
  unfold classifyRunCam classifyCore
  rw [if_pos ⟨ne_of_gt hb, hb⟩]

theorem classifyTiming_eq_core (t b o : Rat) (hb : 0 < b) (ho : 0 < o) :
    classifyTiming t b o = classifyCore t (100 * (b - o) / b) := by
  unfold classifyTiming classifyCore
  rw [if_pos ⟨hb, ho⟩]

theorem classifyCore_spec (thr x : Rat) (hthr : 0 < thr) :
    (classifyCore thr x = none ↔ ¬ thr ≤ |x|)
  ∧ (classifyCore thr x = some fasterLabel ↔ (thr ≤ |x| ∧ 0 < x))
  ∧ (classifyCore thr x = some slowerLabel ↔ (thr ≤ |x| ∧ x < 0))
  ∧ (x = 0 → classifyCore thr x = none) := by
  have hFS : fasterLabel ≠ slowerLabel := by decide
  unfold classifyCore
  by_cases hx : thr ≤ |x|
  · have hxne : x ≠ 0 := by
      intro h0
      rw [h0, abs_zero] at hx
      exact absurd hx (not_le.mpr hthr)
    rw [if_pos hx]
    refine ⟨iff_of_false (by simp) (by simp [hx]), ?_, ?_, ?_⟩
    · by_cases hp : 0 < x
      · rw [if_pos hp]
        exact iff_of_true rfl ⟨hx, hp⟩
      · rw [if_neg hp]
        exact iff_of_false (by simp [hFS.symm]) (by tauto)
    · by_cases hp : 0 < x
      · rw [if_pos hp]
        refine iff_of_false (by simp [hFS]) ?_
        rintro ⟨_, hneg⟩
        exact absurd (lt_trans hneg hp) (lt_irrefl x)
      · rw [if_neg hp]
        exact iff_of_true rfl ⟨hx, lt_of_le_of_ne (le_of_not_lt hp) hxne⟩
    · intro h0
      exact absurd h0 hxne
  · rw [if_neg hx]
    exact ⟨iff_of_true rfl hx, iff_of_false (by simp) (by tauto),
      iff_of_false (by simp) (by tauto), fun _ => rfl⟩

theorem sign_mul100_pos (b o : Rat) (hb : 0 < b) : 0 < (b - o) / b * 100 ↔ o < b := by
  constructor
  · intro h
    rcases mul_pos_iff.mp h with ⟨h1, _⟩ | ⟨_, h2⟩
    · rcases div_pos_iff.mp h1 with ⟨h3, _⟩ | ⟨_, h4⟩
      · exact sub_pos.mp h3
      · linarith
    · linarith
  · intro h
    exact mul_pos (div_pos (sub_pos.mpr h) hb) (by norm_num)

theorem sign_mul100_neg (b o : Rat) (hb : 0 < b) : (b - o) / b * 100 < 0 ↔ b < o := by
  constructor
  · intro h
    rcases mul_neg_iff.mp h with ⟨h1, h2⟩ | ⟨h1, h2⟩
    · linarith
    · rcases div_neg_iff.mp h1 with ⟨_, h3⟩ | ⟨h3, _⟩
      · linarith
      · exact sub_neg.mp h3
  · intro h
    exact mul_neg_of_neg_of_pos (div_neg_of_neg_of_pos (sub_neg.mpr h) hb) (by norm_num)

theorem sign_100mul_pos (b o : Rat) (hb : 0 < b) : 0 < 100 * (b - o) / b ↔ o < b := by
  constructor
  · intro h
    rcases div_pos_iff.mp h with ⟨h1, _⟩ | ⟨_, h2⟩
    · rcases mul_pos_iff.mp h1 with ⟨_, h3⟩ | ⟨h3, _⟩
      · exact sub_pos.mp h3
      · linarith
    · linarith
  · intro h
    exact div_pos (mul_pos (by norm_num) (sub_pos.mpr h)) hb

theorem sign_100mul_neg (b o : Rat) (hb : 0 < b) : 100 * (b - o) / b < 0 ↔ b < o := by
  constructor
  · intro h
    rcases div_neg_iff.mp h with ⟨h1, h2⟩ | ⟨h1, h2⟩
    · linarith
    · rcases mul_neg_iff.mp h1 with ⟨_, h3⟩ | ⟨h3, _⟩
      · exact sub_neg.mp h3
      · linarith
  · intro h
    exact div_neg_of_neg_of_pos (mul_neg_of_pos_of_neg (by norm_num) (sub_neg.mpr h)) hb

theorem find_region_rows_some (rows : List RegionRecord) (name : String) :
    ∀ (r : RegionRecord) (i : Nat), find_region_rows rows name = some (r, i) →
      rows[i]? = some r ∧ r.region = name ∧
      ∀ j, j < i → ∀ s, rows[j]? = some s → s.region ≠ name := by
  induction rows with
  | nil => intro r i h; simp [find_region_rows] at h
  | cons a t ih =>
    intro r i h
    unfold find_region_rows at h
    by_cases ha : a.region = name
    · rw [if_pos ha] at h
      simp only [Option.some.injEq, Prod.mk.injEq] at h
      obtain ⟨h1, h2⟩ := h
      subst h1
      subst h2
      exact ⟨by simp, ha, fun j hj => absurd hj (Nat.not_lt_zero j)⟩
    · rw [if_neg ha] at h
      rcases Option.map_eq_some'.mp h with ⟨⟨r', i'⟩, hfind, hpair⟩
      simp only [Prod.mk.injEq] at hpair
      obtain ⟨h1, h2⟩ := hpair
      subst h1
      subst h2
      obtain ⟨g1, g2, g3⟩ := ih r' i' hfind
      refine ⟨by simpa using g1, g2, ?_⟩
      intro j hj s hs
      cases j with
      | zero =>
        simp only [List.getElem?_cons_zero, Option.some.injEq] at hs
        rw [← hs]
        exact ha
      | succ j' =>
        exact g3 j' (by omega) s (by simpa using hs)

theorem find_region_rows_none (rows : List RegionRecord) (name : String) :
    find_region_rows rows name = none ↔ ∀ s ∈ rows, s.region ≠ name := by
  induction rows with
  | nil => simp [find_region_rows]
  | cons a t ih =>
    unfold find_region_rows
    by_cases ha : a.region = name
    · rw [if_pos ha]
      simp [ha]
    · rw [if_neg ha, Option.map_eq_none', ih]
      constructor
      · intro h s hs
        rcases List.mem_cons.mp hs with h1 | h1
        · rw [h1]; exact ha
        · exact h s h1
      · intro h s hs
        exact h s (List.mem_cons_of_mem a hs)

/-- C1 (amended).  For `run-cam/timing.py`, `parse_esmf_summary` fails
with the fatal document-not-recognized error exactly when no line of the
document matches the grammar, and succeeds returning the matched records
as soon as at least one line matches; that is its only parse failure.
The `timing/timing.py` variant of `parse_esmf_summary`, however, never
fails: it returns the (possibly empty) list of matched records. -/
theorem parse_failure_characterization (lines : List String) :
    (parse_esmf_summary lines = Except.error parseErrorMsg ↔ ∀ l ∈ lines, matchLine l = none)
  ∧ (lines.any (fun l => (matchLine l).isSome) = true →
      parse_esmf_summary lines = Except.ok (lines.filterMap matchLine))
  ∧ timing_parse_esmf_summary lines = lines.filterMap timingMatchLine :=
  ⟨parse_error_iff lines, parse_ok_of_any lines, rfl⟩

/-- C1 witness: a document with one matching line parses successfully. -/
theorem parse_failure_characterization_witness :
    parse_esmf_summary goodDoc = Except.ok (goodDoc.filterMap matchLine) :=
  (parse_failure_characterization goodDoc).2.1 (by decide)

/-- C1 counterexample.  On a document in which zero lines match the
grammar, the `timing/timing.py` parser returns normally with an empty
record list instead of failing (only the run-cam parser raises), so the
claim's "parsing fails iff zero lines match", read over both cited
parsers, is false. -/
theorem timing_parse_silent_on_unmatched_document :
    (∀ l ∈ badDoc, matchLine l = none)
  ∧ timing_parse_esmf_summary badDoc = []
  ∧ parse_esmf_summary badDoc = Except.error parseErrorMsg :=
  ⟨by decide, by decide, (parse_error_iff badDoc).mpr (by decide)⟩

/-- C2 (amended).  For `run-cam/timing.py`, cross-run alignment never
crashes and never drops a row: row assembly is total, emitting exactly
one output row per selected baseline child, each carrying the child's
name, with absence from the second document's registry flagged by
`optData = none`.  For `timing/timing.py`, the guarantee fails: the
overlay's unguarded `opt_data[r]` lookup of line 92 raises `KeyError`
exactly when some requested timer is absent from the optimized data
(`timing_opt_means` returns `none`); only when every requested timer is
present does it produce one mean per timer. -/
theorem alignment_never_drops_rows (children : List RegionRecord)
    (optMap : List (String × RegionRecord))
    (optData : List (String × TimingRecord)) (timers : List String) :
    (assembleRows true optMap children).length = children.length
  ∧ (∀ (i : Nat) (r : RegionRecord), children[i]? = some r →
      (assembleRows true optMap children)[i]? = some (makeRow true optMap r)
      ∧ (makeRow true optMap r).region = r.region
      ∧ (lookupDict optMap r.region = none → (makeRow true optMap r).optData = none))
  ∧ (timing_opt_means optData timers = none ↔
      ∃ tm ∈ timers, timingLookup optData tm = none)
  ∧ (∀ ms, timing_opt_means optData timers = some ms → ms.length = timers.length) := by
  refine ⟨List.length_map children _, ?_, ?_, ?_⟩
  · intro i r h
    refine ⟨?_, rfl, ?_⟩
    · unfold assembleRows
      rw [List.getElem?_map, h]
      rfl
    · intro hnone
      simp [makeRow, hnone]
  · induction timers with
    | nil => simp [timing_opt_means]
    | cons tm rest ih =>
      cases hl : timingLookup optData tm with
      | none =>
        simp only [timing_opt_means, hl]
        exact iff_of_true trivial ⟨tm, List.mem_cons_self tm rest, hl⟩
      | some x =>
        simp only [timing_opt_means, hl]
        rw [Option.map_eq_none', ih]
        constructor
        · rintro ⟨tm', h1, h2⟩
          exact ⟨tm', List.mem_cons_of_mem _ h1, h2⟩
        · rintro ⟨tm', h1, h2⟩
          rcases List.mem_cons.mp h1 with h3 | h3
          · rw [h3, hl] at h2
            simp at h2
          · exact ⟨tm', h3, h2⟩
  · induction timers with
    | nil =>
      intro ms h
      simp only [timing_opt_means, Option.some.injEq] at h
      rw [← h]
      rfl
    | cons tm rest ih =>
      intro ms h
      cases hl : timingLookup optData tm with
      | none =>
        rw [timing_opt_means, hl] at h
        simp at h
      | some x =>
        rw [timing_opt_means, hl] at h
        simp only at h
        rcases Option.map_eq_some'.mp h with ⟨ms', hms', hcons⟩
        rw [← hcons]
        simp [ih ms' hms']

/-- C2 counterexample.  An optimized document supplying one of the two
requested timers: `opt_data` is non-empty, so the overlay block of
`timing/timing.py` runs, and line 92's unguarded lookup of the other
timer raises `KeyError` — cross-run alignment crashes on mismatched data
instead of emitting a flagged row. -/
theorem timing_alignment_crashes_on_partial_counterpart :
    cexOptData.isEmpty = false
  ∧ timingLookup cexOptData timerA ≠ none
  ∧ timing_opt_means cexOptData timersCex = none := by
  refine ⟨by decide, by decide, by decide⟩

/-- C2 witness: a run-cam child with an empty second registry still
yields a flagged row, and with a partial optimized registry the missing
timer makes the timing overlay lookup fail. -/
theorem alignment_never_drops_rows_witness :
    (assembleRows true [] [rowB])[0]? = some (makeRow true [] rowB)
  ∧ (makeRow true [] rowB).optData = none
  ∧ timing_opt_means cexOptData timersCex = none := by
  have h := alignment_never_drops_rows [rowB] [] cexOptData timersCex
  have hrow := h.2.1 0 rowB (by rfl)
  exact ⟨hrow.1, hrow.2.2 (by rfl), h.2.2.1.mpr ⟨timerB, by decide, by decide⟩⟩

/-- C6.  Both ratio computations return the undefined sentinel (`none`)
on a non-positive denominator instead of raising: share-of-parent equals
`100 * (child mean / parent mean)` when the parent mean is positive and
the sentinel otherwise, and the multiplicative delta equals
`baseline mean / optimized mean` when the optimized mean is positive and
the sentinel otherwise. -/
theorem ratio_guards_nonpositive_denominator (c p b o : Rat) :
    (0 < p → shareOfParent c p = some (100 * (c / p)))
  ∧ (p ≤ 0 → shareOfParent c p = none)
  ∧ (0 < o → speedup b o = some (b / o))
  ∧ (o ≤ 0 → speedup b o = none) := by
  refine ⟨fun h => by simp [shareOfParent, h],
    fun h => by simp [shareOfParent, not_lt.mpr h],
    fun h => by simp [speedup, h, ne_of_gt h],
    fun h => ?_⟩
  unfold speedup
  rw [if_neg]
  rintro ⟨h1, h2⟩
  exact absurd h2 (not_lt.mpr h)

/-- C6 witness: both formulas at positive denominators, both sentinels at
zero denominators. -/
theorem ratio_guards_nonpositive_denominator_witness :
    shareOfParent 5 10 = some (100 * ((5 : Rat) / 10))
  ∧ shareOfParent 5 0 = none
  ∧ speedup 10 4 = some ((10 : Rat) / 4)
  ∧ speedup 10 0 = none := by
  have h1 := ratio_guards_nonpositive_denominator 5 10 10 4
  have h2 := ratio_guards_nonpositive_denominator 5 0 10 0
  exact ⟨h1.1 (by norm_num), h2.2.1 (by norm_num),
    h1.2.2.1 (by norm_num), h2.2.2.2 (by norm_num)⟩

/-- C10.  The plotted error-bar extents are clamped at zero: each low
extent equals `max 0 (mean - min)`, each high extent equals
`max 0 (max - mean)`, and every element of both vectors is non-negative,
even for records violating the unvalidated `min ≤ mean ≤ max` invariant. -/
theorem error_bar_extents_clamped (children : List RegionRecord) :
    (∀ x ∈ base_xerr_low children, 0 ≤ x)
  ∧ (∀ x ∈ base_xerr_high children, 0 ≤ x)
  ∧ (∀ (i : Nat) (r : RegionRecord), children[i]? = some r →
      (base_xerr_low children)[i]? = some (max 0 (r.meanS - r.minS))
      ∧ (base_xerr_high children)[i]? = some (max 0 (r.maxS - r.meanS))) := by
  refine ⟨?_, ?_, ?_⟩
  · intro x hx
    rcases List.mem_map.mp hx with ⟨r, _, hr⟩
    rw [← hr]
    exact le_max_left _ _
  · intro x hx
    rcases List.mem_map.mp hx with ⟨r, _, hr⟩
    rw [← hr]
    exact le_max_left _ _
  · intro i r h
    unfold base_xerr_low base_xerr_high
    rw [List.getElem?_map, List.getElem?_map, h]
    exact ⟨rfl, rfl⟩

/-- C10 witness: on a record with `min > mean` and `max < mean`, both
extents are clamped to zero rather than going negative. -/
theorem error_bar_extents_clamped_witness :
    (base_xerr_low [clampRec])[0]? = some (max 0 (clampRec.meanS - clampRec.minS))
  ∧ max 0 (clampRec.meanS - clampRec.minS) = 0
  ∧ max 0 (clampRec.maxS - clampRec.meanS) = 0 := by
  refine ⟨((error_bar_extents_clamped [clampRec]).2.2 0 clampRec rfl).1, ?_, ?_⟩
  · rw [show clampRec.meanS - clampRec.minS = -1 by norm_num [clampRec]]
    rw [max_eq_left (by norm_num)]
  · rw [show clampRec.maxS - clampRec.meanS = -1 by norm_num [clampRec]]
    rw [max_eq_left (by norm_num)]

theorem append_getElem_length {a : Type} (l1 l2 : List a) :
    (l1 ++ l2)[l1.length]? = l2[0]? := by
  rw [List.getElem?_append_right le_rfl, Nat.sub_self]

/-- C4.  For a valid parent position, `collect_children` returns exactly
the contiguous run starting at `position + 1`: its `j`-th element is the
record at sequence position `position + 1 + j`, every element has
`indent` strictly greater than the parent's, and the record immediately
following the returned run, when one exists, has `indent` less than or
equal to the parent's (so the run is maximal); an empty result is a valid
non-error outcome. -/
theorem collect_children_contiguous_block (rows : List RegionRecord) (i : Nat)
    (parent : RegionRecord) (hp : rows[i]? = some parent) :
    (∀ j, j < (collect_children rows i).length →
        (collect_children rows i)[j]? = rows[i + 1 + j]?)
  ∧ (∀ r ∈ collect_children rows i, parent.indent < r.indent)
  ∧ (∀ r, rows[i + 1 + (collect_children rows i).length]? = some r →
        r.indent ≤ parent.indent) := by
  have hcc : collect_children rows i
      = (rows.drop (i + 1)).takeWhile (fun r => decide (parent.indent < r.indent)) := by
    unfold collect_children
    rw [hp]
  refine ⟨?_, ?_, ?_⟩
  · intro j hj
    rw [hcc] at hj ⊢
    rw [takeWhile_getElem_eq _ _ j hj, List.getElem?_drop]
  · intro r hr
    rw [hcc] at hr
    simpa using List.mem_takeWhile_imp hr
  · intro r h3
    rw [hcc] at h3
    have e1 := List.takeWhile_append_dropWhile
      (fun r => decide (parent.indent < r.indent)) (rows.drop (i + 1))
    have e2 := append_getElem_length
      ((rows.drop (i + 1)).takeWhile (fun r => decide (parent.indent < r.indent)))
      ((rows.drop (i + 1)).dropWhile (fun r => decide (parent.indent < r.indent)))
    rw [e1] at e2
    rw [← List.getElem?_drop, e2] at h3
    have h4 : ((rows.drop (i + 1)).dropWhile
        (fun r => decide (parent.indent < r.indent))).head? = some r := by
      rw [List.head?_eq_getElem?]
      exact h3
    have h5 := dropWhile_head_not _ _ r h4
    simp only [decide_eq_false_iff_not, not_lt] at h5
    exact h5

/-- C4 witness: in the specification's worked example, the children of
`A` are exactly `[B, C]`, each more deeply indented than `A`, and the
record following the run (`D`) is back at the parent's level. -/
theorem collect_children_contiguous_block_witness :
    collect_children exampleRows 0 = [rowB, rowC]
  ∧ rowA.indent < rowB.indent
  ∧ rowD.indent ≤ rowA.indent := by
  have h := collect_children_contiguous_block exampleRows 0 rowA (by decide)
  exact ⟨by decide, h.2.1 rowB (by decide), h.2.2 rowD (by decide)⟩

/-- C5.  The registry built from a sequence maps names to records with at
most one entry per record of the sequence (`size ≤ length`), and lookup
of any name yields exactly the last record of that name in document
order (first match in the reversed sequence) — last-occurrence-wins, not
a merge; names that never occur look up to nothing. -/
theorem region_map_last_occurrence_wins (rows : List RegionRecord) :
    (build_region_map rows).length ≤ rows.length
  ∧ ∀ name : String, lookupDict (build_region_map rows) name
      = rows.reverse.find? (fun r => decide (r.region = name)) := by
  constructor
  · have h := length_build_foldl_le rows []
    simpa [build_region_map] using h
  · intro name
    have h := lookup_build_foldl rows [] name
    unfold build_region_map
    rw [h]
    cases hf : rows.reverse.find? (fun r => decide (r.region = name)) with
    | some v => rfl
    | none => rfl

/-- C3.  The ranking output has length `min N (number of children)`, is
sorted by mean time in descending order, and for every mean value the
tied children appear as a subsequence of their original document order
(stability of the sort); fewer than `N` children is not an error. -/
theorem ranking_length_sorted_stable (children : List RegionRecord) (n : Nat) :
    (rankChildren children n).length = min n children.length
  ∧ (rankChildren children n).Pairwise (fun a b => b.meanS ≤ a.meanS)
  ∧ ∀ m : Rat, ((rankChildren children n).filter (fun r => decide (r.meanS = m))).Sublist
      (children.filter (fun r => decide (r.meanS = m))) := by
  have htrans : ∀ a b c : RegionRecord, meanDescLe a b = true → meanDescLe b c = true →
      meanDescLe a c = true := by
    intro a b c hab hbc
    simp only [meanDescLe, decide_eq_true_eq] at *
    exact le_trans hbc hab
  have htotal : ∀ a b : RegionRecord, (meanDescLe a b || meanDescLe b a) = true := by
    intro a b
    simp only [meanDescLe, Bool.or_eq_true, decide_eq_true_eq]
    exact le_total b.meanS a.meanS
  refine ⟨?_, ?_, ?_⟩
  · unfold rankChildren
    rw [List.length_take, List.length_mergeSort]
  · have hs := List.sorted_mergeSort htrans htotal children
    have ht : (rankChildren children n).Pairwise (fun a b => meanDescLe a b = true) :=
      List.Pairwise.sublist (List.take_sublist n (children.mergeSort meanDescLe)) hs
    exact ht.imp (fun h => by simpa [meanDescLe] using h)
  · intro m
    have hmem : ∀ a ∈ children.filter (fun r => decide (r.meanS = m)), a.meanS = m := by
      intro a ha
      simpa using (List.mem_filter.mp ha).2
    have hpw : (children.filter (fun r => decide (r.meanS = m))).Pairwise
        (fun a b => meanDescLe a b = true) := by
      apply List.pairwise_of_forall_mem_list
      intro a ha b hb
      simp only [meanDescLe, decide_eq_true_eq]
      rw [hmem a ha, hmem b hb]
    have hsub : (children.filter (fun r => decide (r.meanS = m))).Sublist
        (children.mergeSort meanDescLe) :=
      List.sublist_mergeSort htrans htotal hpw (List.filter_sublist children)
    have hidem : (children.filter (fun r => decide (r.meanS = m))).filter
        (fun r => decide (r.meanS = m)) = children.filter (fun r => decide (r.meanS = m)) :=
      List.filter_eq_self.mpr (fun a ha => (List.mem_filter.mp ha).2)
    have h1 : (children.filter (fun r => decide (r.meanS = m))).Sublist
        ((children.mergeSort meanDescLe).filter (fun r => decide (r.meanS = m))) := by
      have := List.Sublist.filter (fun r => decide (r.meanS = m)) hsub
      rwa [hidem] at this
    have hlen : ((children.mergeSort meanDescLe).filter (fun r => decide (r.meanS = m))).length
        = (children.filter (fun r => decide (r.meanS = m))).length :=
      ((List.mergeSort_perm children meanDescLe).filter _).length_eq
    have heq : (children.mergeSort meanDescLe).filter (fun r => decide (r.meanS = m))
        = children.filter (fun r => decide (r.meanS = m)) :=
      (h1.eq_of_length hlen.symm).symm
    have h2 := List.Sublist.filter (fun r => decide (r.meanS = m))
      (List.take_sublist n (children.mergeSort meanDescLe))
    rw [heq] at h2
    exact h2

/-- C7 (amended).  For pairs with positive baseline time, run-cam's
fixed-threshold classification satisfies the claim for *every* optimized
value (including zero): a label is attached exactly when the absolute
percentage delta reaches the 5-point threshold, "faster" exactly when
the optimized time is smaller, "slower" exactly when it is larger, and a
zero delta is unlabeled.  The configurable-threshold `timing/timing.py`
variant satisfies the same properties under its own guards — positive
optimized time — and a positive threshold.  The original claim's
quantification over *every* threshold fails: at threshold `0` the
`timing/timing.py` variant labels a zero delta "slower" (see the
counterexample). -/
theorem classify_threshold_direction (t b o : Rat) (hb : 0 < b) :
    (classifyRunCam b o = none ↔ ¬ ANNOTATE_THRESHOLD_PCT ≤ |(b - o) / b * 100|)
  ∧ (classifyRunCam b o = some fasterLabel ↔
      (ANNOTATE_THRESHOLD_PCT ≤ |(b - o) / b * 100| ∧ o < b))
  ∧ (classifyRunCam b o = some slowerLabel ↔
      (ANNOTATE_THRESHOLD_PCT ≤ |(b - o) / b * 100| ∧ b < o))
  ∧ (b = o → classifyRunCam b o = none)
  ∧ (0 < t → 0 < o →
      (classifyTiming t b o = none ↔ ¬ t ≤ |100 * (b - o) / b|))
  ∧ (0 < t → 0 < o →
      (classifyTiming t b o = some fasterLabel ↔ (t ≤ |100 * (b - o) / b| ∧ o < b)))
  ∧ (0 < t → 0 < o →
      (classifyTiming t b o = some slowerLabel ↔ (t ≤ |100 * (b - o) / b| ∧ b < o)))
  ∧ (0 < t → 0 < o → b = o → classifyTiming t b o = none) := by
  have h5 : (0 : Rat) < ANNOTATE_THRESHOLD_PCT := by norm_num [ANNOTATE_THRESHOLD_PCT]
  have e1 := classifyRunCam_eq_core b o hb
  have s1 := classifyCore_spec ANNOTATE_THRESHOLD_PCT ((b - o) / b * 100) h5
  refine ⟨?_, ?_, ?_, ?_, ?_, ?_, ?_, ?_⟩
  · rw [e1]; exact s1.1
  · rw [e1]
    exact s1.2.1.trans (and_congr_right fun _ => sign_mul100_pos b o hb)
  · rw [e1]
    exact s1.2.2.1.trans (and_congr_right fun _ => sign_mul100_neg b o hb)
  · intro hbo
    rw [e1]
    exact s1.2.2.2 (by rw [hbo, sub_self, zero_div, zero_mul])
  · intro ht ho
    rw [classifyTiming_eq_core t b o hb ho]
    exact (classifyCore_spec t (100 * (b - o) / b) ht).1
  · intro ht ho
    rw [classifyTiming_eq_core t b o hb ho]
    exact (classifyCore_spec t (100 * (b - o) / b) ht).2.1.trans
      (and_congr_right fun _ => sign_100mul_pos b o hb)
  · intro ht ho
    rw [classifyTiming_eq_core t b o hb ho]
    exact (classifyCore_spec t (100 * (b - o) / b) ht).2.2.1.trans
      (and_congr_right fun _ => sign_100mul_neg b o hb)
  · intro ht ho hbo
    rw [classifyTiming_eq_core t b o hb ho]
    exact (classifyCore_spec t (100 * (b - o) / b) ht).2.2.2
      (by rw [hbo, sub_self, mul_zero, zero_div])

/-- C7 counterexample.  With threshold `0` and equal baseline and
optimized times, `timing/timing.py` attaches the label "slower" to a
delta of exactly zero, refuting "a delta of exactly zero is always
unlabeled" (and "slower exactly when larger") as quantified over every
threshold. -/
theorem classify_zero_delta_labeled_at_zero_threshold :
    classifyTiming 0 1 1 = some slowerLabel := by
  unfold classifyTiming
  rw [if_pos ⟨by norm_num, by norm_num⟩]
  rw [show (100 : Rat) * (1 - 1) / 1 = 0 by norm_num]
  rw [abs_zero, if_pos (le_refl (0 : Rat)), if_neg (lt_irrefl (0 : Rat))]

/-- C7 witness: a 10% improvement is labeled "faster" by both scripts at
the default 5-point threshold, and run-cam also labels an optimized mean
of exactly zero (a case outside the timing variant's guards). -/
theorem classify_threshold_direction_witness :
    classifyRunCam 10 9 = some fasterLabel
  ∧ classifyRunCam 10 0 = some fasterLabel
  ∧ classifyTiming 5 10 9 = some fasterLabel := by
  have h := classify_threshold_direction 5 10 9 (by norm_num)
  have h0 := classify_threshold_direction 5 10 0 (by norm_num)
  have ha1 : ANNOTATE_THRESHOLD_PCT ≤ |((10 : Rat) - 9) / 10 * 100| := by
    rw [show ((10 : Rat) - 9) / 10 * 100 = 10 by norm_num,
      abs_of_pos (by norm_num : (0 : Rat) < 10)]
    norm_num [ANNOTATE_THRESHOLD_PCT]
  have ha0 : ANNOTATE_THRESHOLD_PCT ≤ |((10 : Rat) - 0) / 10 * 100| := by
    rw [show ((10 : Rat) - 0) / 10 * 100 = 100 by norm_num,
      abs_of_pos (by norm_num : (0 : Rat) < 100)]
    norm_num [ANNOTATE_THRESHOLD_PCT]
  have ha2 : (5 : Rat) ≤ |(100 : Rat) * (10 - 9) / 10| := by
    rw [show (100 : Rat) * (10 - 9) / 10 = 10 by norm_num,
      abs_of_pos (by norm_num : (0 : Rat) < 10)]
    norm_num
  exact ⟨h.2.1.mpr ⟨ha1, by norm_num⟩, h0.2.1.mpr ⟨ha0, by norm_num⟩,
    (h.2.2.2.2.2.1 (by norm_num) (by norm_num)).mpr ⟨ha2, by norm_num⟩⟩

/-- C8 (amended).  After parsing, the only in-place modification of the
RegionSequence's records is the share-of-parent pass, which sets the
derived `pctOfParent` field of the selected children: it preserves every
parsed (tokenizer-produced) field of every record in the sequence.  The
registry's entries are records of the sequence taken as-is (keyed by
their own names), so registry contents are untouched as well.  The
original claim that *no* later operation changes any field is refuted by
the counterexample: the pass does change `pctOfParent` inside the shared
sequence. -/
theorem share_pass_preserves_parsed_fields (rows : List RegionRecord) (pidx : Nat)
    (pmean : Rat) :
    (applyShareToRows rows pidx pmean).map parsedPart = rows.map parsedPart
  ∧ ∀ q ∈ build_region_map rows, q.2 ∈ rows ∧ q.1 = q.2.region := by
  constructor
  · cases hp : rows[pidx]? with
    | none =>
      have hcc : collect_children rows pidx = [] := by
        unfold collect_children
        rw [hp]
      rw [applyShareToRows, hcc]
      simp [List.take_append_drop]
    | some parent =>
      have hcc : collect_children rows pidx
          = (rows.drop (pidx + 1)).takeWhile (fun r => decide (parent.indent < r.indent)) := by
        unfold collect_children
        rw [hp]
      have hsplit := List.takeWhile_append_dropWhile
        (fun r => decide (parent.indent < r.indent)) (rows.drop (pidx + 1))
      have hdw : rows.drop (pidx + 1 + (collect_children rows pidx).length)
          = (rows.drop (pidx + 1)).dropWhile (fun r => decide (parent.indent < r.indent)) := by
        rw [hcc, ← List.drop_drop]
        have hc := congrArg
          (List.drop ((rows.drop (pidx + 1)).takeWhile
            (fun r => decide (parent.indent < r.indent))).length) hsplit.symm
        rw [hc, List.drop_left]
      have hmm : ((collect_children rows pidx).map (addShare pmean)).map parsedPart
          = (collect_children rows pidx).map parsedPart := by
        rw [List.map_map]
        exact List.map_congr_left (fun r _ => rfl)
      rw [applyShareToRows, hdw, List.map_append, List.map_append, hmm, hcc,
        ← List.map_append, ← List.map_append, List.append_assoc, hsplit,
        List.take_append_drop]
  · intro q hq
    rcases mem_build_foldl_or rows [] q hq with h1 | h2
    · simp at h1
    · rcases h2 with ⟨r, hr, hqe⟩
      rw [hqe]
      exact ⟨hr, rfl⟩

/-- C8 counterexample.  On the specification's own example rows, the
share-of-parent pass changes the sequence: the child records gain the
derived percentage value, so the sequence is no longer equal to the one
produced by the parser — the RegionSequence is not immutable under the
share-of-parent computation. -/
theorem share_pass_mutates_sequence :
    applyShareToRows exampleRows 0 10 ≠ exampleRows := by decide

/-- C8 witness: on the example rows the pass preserves all parsed fields,
and a concrete registry entry is a record of the sequence keyed by its
own name. -/
theorem share_pass_preserves_parsed_fields_witness :
    (applyShareToRows exampleRows 0 10).map parsedPart = exampleRows.map parsedPart
  ∧ rowA ∈ exampleRows ∧ nameA = rowA.region := by
  have h := share_pass_preserves_parsed_fields exampleRows 0 10
  have h2 := h.2 (nameA, rowA) (by decide)
  exact ⟨h.1, h2.1, h2.2⟩

/-- C9 (amended).  `find_region_rows` returns the first exact-name match
scanning from the start.  Absence of the region from the *baseline*
document is fatal and surfaced with a bounded sample (at most 30 source
rows' worth) of available region names; absence from the *optimized*
document is not fatal: only a warning is recorded and the registry is
built and used regardless, which refutes the original claim that
absence from any document aborts that document's processing. -/
theorem find_region_first_match_and_diagnostics (rows : List RegionRecord) (name : String)
    (optLines : List String) (optRows : List RegionRecord) :
    (∀ (r : RegionRecord) (i : Nat), find_region_rows rows name = some (r, i) →
        rows[i]? = some r ∧ r.region = name ∧
        ∀ j, j < i → ∀ s, rows[j]? = some s → s.region ≠ name)
  ∧ (find_region_rows rows name = none ↔ ∀ s ∈ rows, s.region ≠ name)
  ∧ (find_region_rows rows name = none →
        selectRegion rows name = Except.error (exampleNames rows))
  ∧ (exampleNames rows).length ≤ 30
  ∧ (∀ s ∈ exampleNames rows, ∃ q ∈ rows, q.region = s)
  ∧ (parse_esmf_summary optLines = Except.ok optRows →
        loadOptimized optLines name
          = Except.ok ((find_region_rows optRows name).isNone, build_region_map optRows)) := by
  refine ⟨find_region_rows_some rows name, find_region_rows_none rows name, ?_, ?_, ?_, ?_⟩
  · intro h
    unfold selectRegion
    rw [h]
  · unfold exampleNames
    rw [List.length_mergeSort]
    calc (((rows.take 30).map (fun r => r.region)).dedup).length
        ≤ ((rows.take 30).map (fun r => r.region)).length :=
          (List.dedup_sublist _).length_le
      _ = (rows.take 30).length := List.length_map _ _
      _ ≤ 30 := by rw [List.length_take]; exact min_le_left _ _
  · intro s hs
    unfold exampleNames at hs
    rw [List.mem_mergeSort, List.mem_dedup] at hs
    rcases List.mem_map.mp hs with ⟨q, hq, hqe⟩
    exact ⟨q, List.Sublist.mem hq (List.take_sublist 30 rows), hqe⟩
  · intro hparse
    unfold loadOptimized
    rw [hparse]

/-- C9 counterexample.  A well-formed optimized document that lacks the
requested region is processed to completion: `loadOptimized` returns
normally (with the warning flag set to `true`), it does not fail, so
region absence is not fatal for the optimized document's processing. -/
theorem optimized_region_missing_not_fatal :
    (loadOptimized optDoc9 regionName9).toOption.map Prod.fst = some true := by decide

/-- C9 witness: the first match is found at position 0 in the example
rows, and the optimized-document path returns the warning-plus-registry
pair. -/
theorem find_region_first_match_witness :
    exampleRows[0]? = some rowA
  ∧ loadOptimized optDoc9 regionName9
      = Except.ok ((find_region_rows optRows9 regionName9).isNone, build_region_map optRows9) := by
  have h1 := (find_region_first_match_and_diagnostics exampleRows nameA optDoc9 optRows9).1
    rowA 0 (by decide)
  have h2 := (find_region_first_match_and_diagnostics exampleRows regionName9 optDoc9
    optRows9).2.2.2.2.2 (parse_ok_of_any optDoc9 (by decide))
  exact ⟨h1.1, h2⟩
